import Mathlib

/-!
Shallow embedding of the celestia-node-rs header store, header verification
and content-addressing code, together with theorems settling the spec claims.

Conventions:
* `u64`/`u16` heights and indices are modelled as `Nat`; where wrap-around
  matters the embedding mirrors the saturating/checked behaviour of the code.
* Times (`tendermint::Time`) are modelled as `Nat` in an arbitrary fixed unit;
  the wall clock `now` is an explicit parameter of `verify`.
* Hashes and CIDs are modelled as `Nat` identifiers except where the byte-level
  layout matters (the CID codec), where bytes are `List Nat` with values < 256.
* Fallible operations return `Except` mirroring `Result`.
-/

namespace Celestia

/-! ## `celestia_types::extended_header` (src/types/src/extended_header.rs)

`tendermint::Hash` is an enum `None | Sha256([u8; 32])`; we model it as
`Option Nat`. `last_header_hash()` returns `Hash::default()` (= `None`)
when `header.last_block_id` is absent. -/

/-- Model of the fields of `ExtendedHeader` (with its inner tendermint header
and commit flattened) that `ExtendedHeader::verify` reads. The commit and
validator set are kept abstract; the result of
`validator_set.verify_commit_light_trusting(chain_id, commit, 1/3)` is
supplied to `verify` as the oracle `commitLightTrustingOk`. -/
structure ExtendedHeader where
  chainId : Nat
  height : Nat
  time : Nat
  validatorsHash : Option Nat
  nextValidatorsHash : Option Nat
  /-- `header.last_block_id.map(|b| b.hash)`; `last_header_hash()` is this or `Hash::None`. -/
  lastBlockIdHash : Option (Option Nat)
  /-- `commit.block_id.hash`, returned by `ExtendedHeader::hash()`. -/
  commitBlockIdHash : Option Nat
  deriving DecidableEq, Repr

/-- `ExtendedHeader::last_header_hash`. -/
def ExtendedHeader.lastHeaderHash (h : ExtendedHeader) : Option Nat :=
  h.lastBlockIdHash.getD none

/-- `VERIFY_CLOCK_DRIFT = Duration::from_secs(10)`, in the time unit of the model. -/
def VERIFY_CLOCK_DRIFT : Nat := 10

/-- The distinct `bail_verification!` sites of `ExtendedHeader::verify`,
in source order. -/
inductive VerifyError where
  | heightNotIncreasing
  | chainIdMismatch
  | timeNotIncreasing
  | timeFromFuture
  | validatorsHashMismatch
  | lastHeaderHashMismatch
  | commitVerificationFailed
  deriving DecidableEq, Repr

/-- `ExtendedHeader::verify(self = trusted, untrusted)`. `now` is the wall
clock sampled inside the function; `commitOk` is the outcome of the
tendermint `verify_commit_light_trusting` call with `DEFAULT_TRUST_LEVEL`
(⅓) against `trusted.validator_set`. -/
def ExtendedHeader.verify (trusted untrusted : ExtendedHeader) (now : Nat)
    (commitOk : Bool) : Except VerifyError Unit :=
  if untrusted.height ≤ trusted.height then
    .error .heightNotIncreasing
  else if untrusted.chainId ≠ trusted.chainId then
    .error .chainIdMismatch
  else if ¬ trusted.time < untrusted.time then
    .error .timeNotIncreasing
  else
    -- `valid_until = now + VERIFY_CLOCK_DRIFT`; failure when
    -- `!untrusted.time().before(valid_until)`, i.e. time ≥ valid_until.
    if ¬ untrusted.time < now + VERIFY_CLOCK_DRIFT then
      .error .timeFromFuture
    else if trusted.height + 1 = untrusted.height then
      if untrusted.validatorsHash ≠ trusted.nextValidatorsHash then
        .error .validatorsHashMismatch
      else if untrusted.lastHeaderHash ≠ trusted.commitBlockIdHash then
        .error .lastHeaderHashMismatch
      else
        .ok ()
    else if commitOk then
      .ok ()
    else
      .error .commitVerificationFailed

/-- The success condition claimed by the spec for `verify`, with clock-drift
bound `untrusted.time ≤ now + 10s` (note `≤`). -/
def claimedVerifySuccess (trusted untrusted : ExtendedHeader) (now : Nat)
    (commitOk : Bool) : Prop :=
  trusted.height < untrusted.height ∧
  untrusted.chainId = trusted.chainId ∧
  trusted.time < untrusted.time ∧
  untrusted.time ≤ now + VERIFY_CLOCK_DRIFT ∧
  ((untrusted.height = trusted.height + 1 ∧
      untrusted.validatorsHash = trusted.nextValidatorsHash ∧
      untrusted.lastHeaderHash = trusted.commitBlockIdHash) ∨
    (untrusted.height ≠ trusted.height + 1 ∧ commitOk = true))

instance (a b : ExtendedHeader) (now : Nat) (c : Bool) :
    Decidable (claimedVerifySuccess a b now c) := by
  unfold claimedVerifySuccess; infer_instance

/-- A trusted header at height 1 with time 0. -/
def ehA : ExtendedHeader :=
  { chainId := 0, height := 1, time := 0, validatorsHash := some 1,
    nextValidatorsHash := some 2, lastBlockIdHash := none,
    commitBlockIdHash := some 7 }

/-- A non-adjacent untrusted header whose time sits exactly at `now + 10s`. -/
def ehB : ExtendedHeader :=
  { chainId := 0, height := 3, time := 10, validatorsHash := some 2,
    nextValidatorsHash := some 3, lastBlockIdHash := some (some 7),
    commitBlockIdHash := some 8 }

/-! ## Store errors (src/node/src/store.rs, `StoreError`)

Only the payloads the claims inspect are modelled. -/

inductive StoreError where
  | hashExists (hash : Nat)
  | heightExists (height : Nat)
  | nonContinuousAppend (headHeight height : Nat)
  | headerRangeOverlap
  | invalidInsertion
  | notFound
  | lostHeight (height : Nat)
  | lostHash (hash : Nat)
  | storedDataError
  | invalidHeadersRange
  | headerVerification (e : VerifyError)
  deriving DecidableEq, Repr

/-! ## `InMemoryStore` (src/node/src/store/in_memory_store.rs) -/

/-- The projection of an `ExtendedHeader` that `InMemoryStore` stores and
reads: `header.hash()` (the commit block-id hash, as a `Nat` id) and
`header.height().value()`. -/
structure StoreHeader where
  hash : Nat
  height : Nat
  deriving DecidableEq, Repr

/-- `SamplingMetadata` (src/node/src/store.rs). CIDs are modelled as `Nat`. -/
structure SamplingMetadata where
  accepted : Bool
  cids_sampled : List Nat
  deriving DecidableEq, Repr

/-- State of `InMemoryStore`. The three dash-maps are association lists
(newest entry first; keys are unique in every reachable state). -/
structure InMemoryStore where
  /-- hash → header -/
  headers : List (Nat × StoreHeader)
  /-- height → sampling metadata -/
  sampling_data : List (Nat × SamplingMetadata)
  /-- height → hash -/
  height_to_hash : List (Nat × Nat)
  /-- `AtomicU64`, 0 on an empty store -/
  head_height : Nat
  /-- `AtomicU64`, starts at 1 -/
  lowest_unsampled_height : Nat
  deriving DecidableEq, Repr

/-- `InMemoryStore::new`. -/
def InMemoryStore.new : InMemoryStore :=
  { headers := [], sampling_data := [], height_to_hash := [],
    head_height := 0, lowest_unsampled_height := 1 }

/-- `InMemoryStore::get_head_height`. -/
def InMemoryStore.getHeadHeight (st : InMemoryStore) : Except StoreError Nat :=
  if st.head_height = 0 then .error .notFound else .ok st.head_height

/-- `InMemoryStore::contains_height` (backing `has_at`). -/
def InMemoryStore.containsHeight (st : InMemoryStore) (height : Nat) : Bool :=
  if st.head_height = 0 then false
  else decide (height ≠ 0 ∧ height ≤ st.head_height)

/-- `InMemoryStore::append_single_unchecked`. Returns the store state after
the call together with the error, if any. -/
def InMemoryStore.appendSingleUnchecked (st : InMemoryStore) (header : StoreHeader) :
    InMemoryStore × Option StoreError :=
  let hash := header.hash
  let height := header.height
  -- `self.get_head_height().unwrap_or(0)` is the raw atomic value
  let head_height := st.head_height
  if head_height > 0 ∧ height ≤ head_height then
    (st, some (.heightExists height))
  else if head_height + 1 ≠ height then
    (st, some (.nonContinuousAppend head_height height))
  else if (st.headers.lookup hash).isSome then
    (st, some (.hashExists hash))
  else if (st.height_to_hash.lookup height).isSome then
    (st, some (.heightExists height))
  else
    ({ st with
        headers := (hash, header) :: st.headers,
        height_to_hash := (height, hash) :: st.height_to_hash,
        head_height := height },
      none)

/-- Replace the value stored under key `k` (the `Entry::Occupied` in-place
update of a dash-map). -/
def setKey {α : Type} (m : List (Nat × α)) (k : Nat) (v : α) : List (Nat × α) :=
  m.map fun p => if p.1 = k then (k, v) else p

/-- The CID-merging loop of `update_sampling_metadata`'s occupied branch:
push every cid of `news` not already contained in the accumulated list. -/
def mergeCids (existing news : List Nat) : List Nat :=
  news.foldl (fun acc cid => if cid ∈ acc then acc else acc ++ [cid]) existing

/-- First-occurrence deduplication (the "dedup" of the spec): keep the first
occurrence of every element, in order. -/
def dedupFO : List Nat → List Nat
  | [] => []
  | x :: xs => x :: dedupFO (xs.filter (· ≠ x))
  termination_by l => l.length
  decreasing_by
    simp only [List.length_cons]
    exact Nat.lt_succ_of_le (List.length_filter_le _ _)

/-- The scan loop of `update_lowest_unsampled_height`: starting at `cur`,
advance while a sampling entry exists. `fuel` bounds the recursion; callers
pass `keys.length + 1`, which is enough to reach the first gap. -/
def firstGapAux (keys : List Nat) : Nat → Nat → Nat
  | 0, cur => cur
  | fuel + 1, cur => if keys.contains cur then firstGapAux keys fuel (cur + 1) else cur

/-- `InMemoryStore::update_lowest_unsampled_height`. Sequentially the
compare-and-swap loop runs exactly once: the cursor becomes the first height
at or above it with no sampling entry. -/
def InMemoryStore.updateLowestUnsampledHeight (st : InMemoryStore) : InMemoryStore × Nat :=
  let keys := st.sampling_data.map Prod.fst
  let nh := firstGapAux keys (keys.length + 1) st.lowest_unsampled_height
  ({ st with lowest_unsampled_height := nh }, nh)

/-- `InMemoryStore::update_sampling_metadata`: state after the call and its
return value. -/
def InMemoryStore.updateSamplingMetadata (st : InMemoryStore) (height : Nat)
    (accepted : Bool) (cids : List Nat) : InMemoryStore × Except StoreError Nat :=
  if st.containsHeight height = false then
    (st, .error .notFound)
  else
    match st.sampling_data.lookup height with
    | none =>
        -- `Entry::Vacant`: the cid list is stored as given
        let st' := { st with
          sampling_data := (height, ⟨accepted, cids⟩) :: st.sampling_data }
        (st'.updateLowestUnsampledHeight.1, .ok st'.updateLowestUnsampledHeight.2)
    | some metadata =>
        -- `Entry::Occupied`: overwrite the flag, append unseen cids
        let st' := { st with
          sampling_data :=
            setKey st.sampling_data height ⟨accepted, mergeCids metadata.cids_sampled cids⟩ }
        (st', .ok st'.lowest_unsampled_height)

/-- `InMemoryStore::get_sampling_metadata`. -/
def InMemoryStore.getSamplingMetadata (st : InMemoryStore) (height : Nat) :
    Except StoreError (Option SamplingMetadata) :=
  if st.containsHeight height = false then .error .notFound
  else .ok (st.sampling_data.lookup height)

/-- The store operations relevant to the sampling cursor. -/
inductive StoreOp where
  | append (header : StoreHeader)
  | updateSampling (height : Nat) (accepted : Bool) (cids : List Nat)

/-- One store call; a failed call leaves the state as the implementation left it. -/
def InMemoryStore.step (st : InMemoryStore) : StoreOp → InMemoryStore
  | .append h => (st.appendSingleUnchecked h).1
  | .updateSampling h acc cids => (st.updateSamplingMetadata h acc cids).1

/-- A sequence of store calls. -/
def InMemoryStore.exec (st : InMemoryStore) (ops : List StoreOp) : InMemoryStore :=
  ops.foldl InMemoryStore.step st

/-! ## Sync range planner (src/node/src/store/utils.rs)

Ranges `lo..=hi` are pairs `(lo, hi)`; a pair with `hi < lo` is an empty
range. `BlockRangeExt::truncate_left/right` live in a module that is not part
of the sources; they are modelled from the spec. -/

/-- Modelled from the spec: `BlockRangeExt::truncate_right` (not in the
sources) keeps at most `limit` heights of a range, "trimming from the right":
the leftmost `limit` heights. -/
def truncateRight (r : Nat × Nat) (limit : Nat) : Nat × Nat :=
  (r.1, min r.2 (r.1 + limit - 1))

/-- Modelled from the spec: `BlockRangeExt::truncate_left` (not in the
sources) keeps "the rightmost `limit` heights" of a range, trimming from the
left. -/
def truncateLeft (r : Nat × Nat) (limit : Nat) : Nat × Nat :=
  (max r.1 (r.2 + 1 - limit), r.2)

/-- `Either<BlockRange, BlockRange>` as used by `get_most_recent_missing_range`. -/
inductive EitherRange where
  | left (r : Nat × Nat)
  | right (r : Nat × Nat)
  deriving DecidableEq, Repr

/-- `get_most_recent_missing_range` (src/node/src/store/utils.rs). The stored
ranges are in ascending order; the code walks them in reverse. -/
def getMostRecentMissingRange (headHeight : Nat) (storeHeaders : List (Nat × Nat)) :
    EitherRange :=
  match storeHeaders.getLast? with
  | none => .right (1, headHeight)
  | some top =>
      if top.2 < headHeight then .right (top.2 + 1, headHeight)
      else
        let penultimateEnd := ((storeHeaders.dropLast.getLast?).map Prod.snd).getD 0
        -- `store_head_range.start().saturating_sub(1)` is Nat subtraction
        .left (penultimateEnd + 1, top.1 - 1)

/-- `calculate_range_to_fetch` (src/node/src/store/utils.rs). -/
def calculate_range_to_fetch (subjectiveHeadHeight : Nat)
    (storeHeaders : List (Nat × Nat)) (limit : Nat) : Nat × Nat :=
  match getMostRecentMissingRange subjectiveHeadHeight storeHeaders with
  | .left range => truncateLeft range limit
  | .right range => truncateRight range limit

/-- A valid stored range set: non-empty ranges over heights ≥ 1, ascending,
pairwise disjoint and non-adjacent (gap ≥ 1). -/
def ValidRanges (rs : List (Nat × Nat)) : Prop :=
  (∀ r ∈ rs, 1 ≤ r.1 ∧ r.1 ≤ r.2) ∧ rs.Pairwise fun a b => a.2 + 1 < b.1

instance (rs : List (Nat × Nat)) : Decidable (ValidRanges rs) :=
  inferInstanceAs (Decidable ((∀ r ∈ rs, 1 ≤ r.1 ∧ r.1 ≤ r.2) ∧
    rs.Pairwise fun (a b : Nat × Nat) => a.2 + 1 < b.1))

/-! ## `Store::get_range` and `to_headers_range` (src/node/src/store.rs) -/

/-- `std::ops::Bound<&u64>` as consumed by `to_headers_range`. -/
inductive HeightBound where
  | unbounded
  | included (x : Nat)
  | excluded (x : Nat)
  deriving DecidableEq, Repr

/-- `to_headers_range(bounds, last_index)`. -/
def to_headers_range (sb eb : HeightBound) (lastIndex : Nat) :
    Except StoreError (Nat × Nat) := do
  let start ← match sb with
    | .unbounded => .ok 1
    | .included x =>
        if x > lastIndex ∨ x = 0 then .error .notFound else .ok x
    | .excluded x =>
        if x ≥ lastIndex then .error .notFound else .ok (x + 1)
  let stop ← match eb with
    | .unbounded => .ok lastIndex
    | .included x =>
        if x > lastIndex then .error .notFound else .ok x
    | .excluded x =>
        if x > lastIndex + 1 then .error .notFound
        else if x = 0 then .ok 0
        else .ok (x - 1)
  return (start, stop)

/-- The heights of the inclusive range `s..=e`, in ascending order (empty
when `e < s`). -/
def heightsList (s e : Nat) : List Nat := List.range' s (e + 1 - s)

/-- The pure resolution of a start bound (unbounded ↦ 1, excluded ↦ x+1). -/
def resolvedStart : HeightBound → Nat
  | .unbounded => 1
  | .included x => x
  | .excluded x => x + 1

/-- The pure resolution of an end bound against head `H`
(unbounded ↦ H, excluded ↦ x−1). -/
def resolvedEnd (H : Nat) : HeightBound → Nat
  | .unbounded => H
  | .included x => x
  | .excluded x => x - 1

/-- `Store::get_range` (default trait implementation): resolve the bounds
against `head_height()`, then fetch each height in ascending order.
(`headHeight` is the result of the `self.head_height().await?` call;
`getByHeight` models the backend.) -/
def get_range (headHeight : Except StoreError Nat)
    (getByHeight : Nat → Except StoreError StoreHeader)
    (sb eb : HeightBound) : Except StoreError (List StoreHeader) := do
  let head ← headHeight
  let (s, e) ← to_headers_range sb eb head
  (heightsList s e).mapM getByHeight

/-! ## Namespaced-data CIDs (src/types/src/namespaced_data.rs)

Bytes are `Nat`s < 256. `NS_SIZE = 29`, `HASH_SIZE = 32`, so
`NAMESPACED_DATA_ID_SIZE = 71`. -/

/-- `NAMESPACED_DATA_ID_MULTIHASH_CODE = 0x7821`. -/
def NAMESPACED_DATA_ID_MULTIHASH_CODE : Nat := 0x7821

/-- `NAMESPACED_DATA_ID_CODEC = 0x7820`. -/
def NAMESPACED_DATA_ID_CODEC : Nat := 0x7820

/-- `NamespacedDataId::size() = NS_SIZE + 42 = 71`. -/
def NAMESPACED_DATA_ID_SIZE : Nat := 71

/-- Little-endian encoding of `n` on `w` bytes (`put_u16_le`/`put_u64_le`). -/
def natToLE : Nat → Nat → List Nat
  | 0, _ => []
  | w + 1, n => n % 256 :: natToLE w (n / 256)

/-- Little-endian decoding (`get_u16_le`/`get_u64_le`). -/
def leToNat : List Nat → Nat
  | [] => 0
  | b :: bs => b + 256 * leToNat bs

/-- `NamespacedDataId`. The namespace is kept as its 29 raw bytes
(`Namespace::as_bytes`). -/
structure NamespacedDataId where
  /-- the 29 raw bytes of the `namespace` field (`Namespace::as_bytes`) -/
  ns : List Nat
  row_index : Nat
  hash : List Nat
  block_height : Nat
  deriving DecidableEq, Repr

/-- A well-formed `NamespacedDataId`: field widths as in the Rust types and
`block_height ≥ 1`. -/
def NamespacedDataId.Valid (id : NamespacedDataId) : Prop :=
  id.ns.length = 29 ∧ (∀ b ∈ id.ns, b < 256) ∧
  id.row_index < 2 ^ 16 ∧
  id.hash.length = 32 ∧ (∀ b ∈ id.hash, b < 256) ∧
  1 ≤ id.block_height ∧ id.block_height < 2 ^ 64

instance (id : NamespacedDataId) : Decidable id.Valid :=
  inferInstanceAs (Decidable (id.ns.length = 29 ∧ (∀ b ∈ id.ns, b < 256) ∧
    id.row_index < 2 ^ 16 ∧ id.hash.length = 32 ∧ (∀ b ∈ id.hash, b < 256) ∧
    1 ≤ id.block_height ∧ id.block_height < 2 ^ 64))

/-- `NamespacedDataId::encode`: `row_index:u16 LE | hash:32 | height:u64 LE |
namespace:29`. -/
def NamespacedDataId.encode (id : NamespacedDataId) : List Nat :=
  natToLE 2 id.row_index ++ id.hash ++ natToLE 8 id.block_height ++ id.ns

/-- `blockstore::block::CidError`, payloads as far as the claims inspect them. -/
inductive CidError where
  | invalidMultihashLength (len : Nat)
  | invalidCid
  | invalidCidCodec (codec : Nat)
  | invalidMultihashCode (code expected : Nat)
  deriving DecidableEq, Repr

/-- A CID: codec, multihash code, and the digest bytes (`Multihash::wrap`
stores the bytes verbatim — the digest function is the identity). -/
structure Cid where
  codec : Nat
  mhCode : Nat
  digest : List Nat
  deriving DecidableEq, Repr

/-- `TryFrom<NamespacedDataId> for CidGeneric<71>` (it never fails). -/
def NamespacedDataId.toCid (id : NamespacedDataId) : Cid :=
  { codec := NAMESPACED_DATA_ID_CODEC,
    mhCode := NAMESPACED_DATA_ID_MULTIHASH_CODE,
    digest := id.encode }

/-- `NamespacedDataId::decode(buffer)`. (`Namespace::from_raw` validation is
outside the model: the code `unwrap`s it.) -/
def NamespacedDataId.decode (buffer : List Nat) : Except CidError NamespacedDataId :=
  if buffer.length ≠ NAMESPACED_DATA_ID_SIZE then
    .error (.invalidMultihashLength buffer.length)
  else
    let row_index := leToNat (buffer.take 2)
    let hash := (buffer.drop 2).take 32
    let block_height := leToNat ((buffer.drop 34).take 8)
    if block_height = 0 then .error .invalidCid
    else
      .ok { ns := (buffer.drop 42).take 29, row_index := row_index,
            hash := hash, block_height := block_height }

/-- `TryFrom<CidGeneric<S>> for NamespacedDataId`. -/
def NamespacedDataId.fromCid (cid : Cid) : Except CidError NamespacedDataId :=
  if cid.codec ≠ NAMESPACED_DATA_ID_CODEC then
    .error (.invalidCidCodec cid.codec)
  else if cid.digest.length ≠ NAMESPACED_DATA_ID_SIZE then
    .error (.invalidMultihashLength cid.digest.length)
  else if cid.mhCode ≠ NAMESPACED_DATA_ID_MULTIHASH_CODE then
    .error (.invalidMultihashCode cid.mhCode NAMESPACED_DATA_ID_MULTIHASH_CODE)
  else
    NamespacedDataId.decode cid.digest

/-! ## `IndexedDbStore` neighbour verification
(src/node/src/store/indexed_db_store.rs)

`HeaderRanges::check_range_insert` lives in a module that is not part of the
sources; it is modelled from the spec (§4.B). `try_insert_to_range` derives
the neighbour flags from the merged range it returns. -/

/-- Modelled from the spec: `HeaderRanges::check_range_insert` (not in the
sources). Rejects an empty or 0-based range (`InvalidInsertion`) and any
overlap with an existing range (`HeaderRangeOverlap`); merges with an
adjacent left range (`left.end + 1 == range.start`) and/or right range
(`range.end + 1 == right.start`). Returns the resulting (merged) range. -/
def checkRangeInsert (stored : List (Nat × Nat)) (new : Nat × Nat) :
    Except StoreError (Nat × Nat) :=
  if new.2 < new.1 ∨ new.1 = 0 then .error .invalidInsertion
  else if stored.any (fun r => ¬(r.2 < new.1 ∨ new.2 < r.1)) then
    .error .headerRangeOverlap
  else
    let leftAdj := stored.filter fun r => r.2 + 1 = new.1
    let rightAdj := stored.filter fun r => new.2 + 1 = r.1
    .ok (((leftAdj.head?).map Prod.fst).getD new.1,
         ((rightAdj.head?).map Prod.snd).getD new.2)

/-- The `(prev_exists, next_exists)` pair computed by `try_insert_to_range`:
the inserted range got extended on the corresponding side. -/
def tryInsertFlags (stored : List (Nat × Nat)) (new : Nat × Nat) :
    Except StoreError (Bool × Bool) :=
  (checkRangeInsert stored new).map fun range =>
    (decide (new.1 ≠ range.1), decide (new.2 ≠ range.2))

/-- `get_by_height` against the headers object store followed by the
`map_err` of `verify_against_neighbours`: a missing neighbour is a
`StoredDataError`. -/
def mapNotFoundToStoredData {α : Type} : Except StoreError α → Except StoreError α
  | .error .notFound => .error .storedDataError
  | other => other

/-- `verify_against_neighbours(header_store, lowest, highest,
neighbours_exist)`. `getByHeight` models the headers table; `vf a b` the
`a.verify(&b)` call (C1's model, with the ambient clock and commit oracle
applied). -/
def verifyAgainstNeighbours (getByHeight : Nat → Except StoreError ExtendedHeader)
    (vf : ExtendedHeader → ExtendedHeader → Except StoreError Unit)
    (lowest highest : ExtendedHeader) (neighboursExist : Bool × Bool) :
    Except StoreError Unit := do
  if neighboursExist.1 then
    let prev ← mapNotFoundToStoredData (getByHeight (lowest.height - 1))
    vf prev lowest
  if neighboursExist.2 then
    let next ← mapNotFoundToStoredData (getByHeight (highest.height + 1))
    vf highest next

/-! ## `HeaderRangesIterator` (src/node/src/store.rs)

The iterator state is the list of not-yet-exhausted ranges: `inner_iter` is
its head, `outer_iter` the tail (`inner_iter` is refilled from `outer_iter`
whenever a range is consumed, so `inner_iter == None` means both are done). -/

/-- `HeaderRangesIterator::next_batch(limit)`. -/
def nextBatch (limit : Nat) : List (Nat × Nat) → Option ((Nat × Nat) × List (Nat × Nat))
  | [] => none
  | r :: rest =>
      -- `current_range.len() = end - start + 1`
      if r.2 + 1 - r.1 ≤ limit then some (r, rest)
      else some ((r.1, r.1 + limit - 1), (r.1 + limit, r.2) :: rest)

/-- Repeatedly call `next_batch` until it returns `None`, collecting the
returned batches. `fuel` bounds the recursion; `totalLen` of the state is
enough when `limit ≥ 1`. -/
def collectBatches (limit : Nat) : Nat → List (Nat × Nat) → List (Nat × Nat)
  | 0, _ => []
  | fuel + 1, st =>
      match nextBatch limit st with
      | none => []
      | some (b, st') => b :: collectBatches limit fuel st'

/-- Number of heights left in the iterator state. -/
def totalLen (st : List (Nat × Nat)) : Nat :=
  (st.map fun r => r.2 + 1 - r.1).sum

/-- All heights of a list of ranges, in list order. -/
def concatHeights (st : List (Nat × Nat)) : List Nat :=
  (st.map fun r => heightsList r.1 r.2).flatten

/-- The sampling-cursor invariant: the cursor is the smallest height ≥ 1
with no sampling entry. -/
def CursorInv (st : InMemoryStore) : Prop :=
  1 ≤ st.lowest_unsampled_height ∧
  st.sampling_data.lookup st.lowest_unsampled_height = none ∧
  ∀ m, 1 ≤ m → m < st.lowest_unsampled_height →
    (st.sampling_data.lookup m).isSome = true

/-- A store holding a single header at height 1 (hash id 10), as left by a
successful `append_single_unchecked` on a fresh store; used for concrete
instances. -/
def store1 : InMemoryStore :=
  { headers := [(10, ⟨10, 1⟩)], sampling_data := [], height_to_hash := [(1, 10)],
    head_height := 1, lowest_unsampled_height := 1 }

/-- `store1` after a successful sampling update at height 1: the cursor has
advanced to 2. -/
def store1Sampled : InMemoryStore :=
  { headers := [(10, ⟨10, 1⟩)], sampling_data := [(1, ⟨true, []⟩)],
    height_to_hash := [(1, 10)], head_height := 1, lowest_unsampled_height := 2 }

/-- A concrete valid `NamespacedDataId` (witness data). -/
def sampleDataId : NamespacedDataId :=
  { ns := List.replicate 29 0, row_index := 7, hash := List.replicate 32 1,
    block_height := 64 }

/-- A second valid `NamespacedDataId`, differing in the row index. -/
def sampleDataId2 : NamespacedDataId :=
  { ns := List.replicate 29 0, row_index := 8, hash := List.replicate 32 1,
    block_height := 64 }

/-- A header at height 4 (witness data for the neighbour checks). -/
def ehC : ExtendedHeader :=
  { chainId := 0, height := 4, time := 20, validatorsHash := some 3,
    nextValidatorsHash := some 4, lastBlockIdHash := some (some 8),
    commitBlockIdHash := some 9 }

end Celestia

namespace Celestia

/-! ## Theorems -/

/-- C1 (counterexample): the claim "verify succeeds iff … b.time ≤ now + 10s
…" is false on the code: with trusted `ehA`, untrusted `ehB`, `now = 0` and a
passing ⅓-trust commit check, every claimed condition holds (in particular
`b.time = now + 10s`), yet `verify` rejects with the time-from-future error,
because the code requires `untrusted.time` to be strictly before
`now + 10s`. -/
theorem verify_claim_false_at_drift_boundary :
    claimedVerifySuccess ehA ehB 0 true ∧
      ehA.verify ehB 0 true = .error .timeFromFuture ∧
      ¬ (ehA.verify ehB 0 true = .ok () ↔ claimedVerifySuccess ehA ehB 0 true) := by
  refine ⟨by decide, by rfl, ?_⟩
  intro h
  have := h.mpr (by decide)
  simp [ehA, ehB, ExtendedHeader.verify, ExtendedHeader.lastHeaderHash,
    VERIFY_CLOCK_DRIFT] at this

/-- C1 (amended): `verify(a, b)` succeeds iff `b.height > a.height`,
`b.chain_id == a.chain_id`, `b.time > a.time`, `b.time` strictly before
`now + 10s`, and either — when `b.height == a.height + 1` — `b`'s
validators hash equals `a`'s next-validators hash and `b`'s last header
hash equals `a.hash()`, or otherwise the ⅓-trust-level commit verification
of `b.commit` against `a.validator_set` passes; moreover each failing
condition yields the corresponding verification error, checked in source
order. -/
theorem verify_characterization (a b : ExtendedHeader) (now : Nat) (commitOk : Bool) :
    (a.verify b now commitOk = .ok () ↔
      a.height < b.height ∧ b.chainId = a.chainId ∧ a.time < b.time ∧
        b.time < now + VERIFY_CLOCK_DRIFT ∧
        ((b.height = a.height + 1 ∧ b.validatorsHash = a.nextValidatorsHash ∧
            b.lastHeaderHash = a.commitBlockIdHash) ∨
          (b.height ≠ a.height + 1 ∧ commitOk = true))) ∧
    (a.verify b now commitOk = .error .heightNotIncreasing ↔ b.height ≤ a.height) ∧
    (a.verify b now commitOk = .error .chainIdMismatch ↔
      a.height < b.height ∧ b.chainId ≠ a.chainId) ∧
    (a.verify b now commitOk = .error .timeNotIncreasing ↔
      a.height < b.height ∧ b.chainId = a.chainId ∧ ¬ a.time < b.time) ∧
    (a.verify b now commitOk = .error .timeFromFuture ↔
      a.height < b.height ∧ b.chainId = a.chainId ∧ a.time < b.time ∧
        ¬ b.time < now + VERIFY_CLOCK_DRIFT) ∧
    (a.verify b now commitOk = .error .validatorsHashMismatch ↔
      a.height < b.height ∧ b.chainId = a.chainId ∧ a.time < b.time ∧
        b.time < now + VERIFY_CLOCK_DRIFT ∧ b.height = a.height + 1 ∧
        b.validatorsHash ≠ a.nextValidatorsHash) ∧
    (a.verify b now commitOk = .error .lastHeaderHashMismatch ↔
      a.height < b.height ∧ b.chainId = a.chainId ∧ a.time < b.time ∧
        b.time < now + VERIFY_CLOCK_DRIFT ∧ b.height = a.height + 1 ∧
        b.validatorsHash = a.nextValidatorsHash ∧
        b.lastHeaderHash ≠ a.commitBlockIdHash) ∧
    (a.verify b now commitOk = .error .commitVerificationFailed ↔
      a.height < b.height ∧ b.chainId = a.chainId ∧ a.time < b.time ∧
        b.time < now + VERIFY_CLOCK_DRIFT ∧ b.height ≠ a.height + 1 ∧
        commitOk = false) := by
  unfold ExtendedHeader.verify
  split_ifs <;> simp_all <;> omega


/-- C9: if `append_single_unchecked` fails, the whole store state — both
maps, the cached head height and the sampling data — is exactly as before
the call, and the error is one of `HeightExists`, `NonContinuousAppend`,
`HashExists`. -/
theorem append_single_unchecked_atomic_on_error (st : InMemoryStore)
    (h : StoreHeader) (e : StoreError)
    (he : (st.appendSingleUnchecked h).2 = some e) :
    (st.appendSingleUnchecked h).1 = st ∧
      (e = .heightExists h.height ∨
        e = .nonContinuousAppend st.head_height h.height ∨
        e = .hashExists h.hash) := by
  simp only [InMemoryStore.appendSingleUnchecked] at he ⊢
  split_ifs at he ⊢ <;> simp_all

/-- C9 witness: appending a header of height 2 to a fresh store fails
(`NonContinuousAppend`) and leaves the store unchanged. -/
theorem append_single_unchecked_atomic_on_error_witness :
    (InMemoryStore.new.appendSingleUnchecked ⟨5, 2⟩).1 = InMemoryStore.new ∧
      (StoreError.nonContinuousAppend 0 2 = .heightExists (2 : Nat) ∨
        StoreError.nonContinuousAppend 0 2 =
          .nonContinuousAppend InMemoryStore.new.head_height 2 ∨
        StoreError.nonContinuousAppend 0 2 = .hashExists (5 : Nat)) :=
  append_single_unchecked_atomic_on_error InMemoryStore.new ⟨5, 2⟩
    (.nonContinuousAppend 0 2) (by rfl)

/-- C10: `contains_height` (= `has_at`) holds exactly on `1 ≤ h ≤ head`,
for every store state (in particular every reachable one); `has_at 0` is
always false; and the result depends only on the cached head height, never
on the height-to-hash map. -/
theorem contains_height_iff_le_head (st st' : InMemoryStore) (h : Nat)
    (same : st.head_height = st'.head_height) :
    (st.containsHeight h = true ↔ 1 ≤ h ∧ h ≤ st.head_height) ∧
      st.containsHeight 0 = false ∧
      st.containsHeight h = st'.containsHeight h := by
  unfold InMemoryStore.containsHeight
  split_ifs <;> simp_all <;> omega

/-- C10 witness: in a store whose cached head is 1 and in `store1` (same
head, different maps), `contains_height 1` agrees and follows the bound. -/
theorem contains_height_iff_le_head_witness :
    ((InMemoryStore.mk [] [] [] 1 1).containsHeight 1 = true ↔
        1 ≤ 1 ∧ 1 ≤ (InMemoryStore.mk [] [] [] 1 1).head_height) ∧
      (InMemoryStore.mk [] [] [] 1 1).containsHeight 0 = false ∧
      (InMemoryStore.mk [] [] [] 1 1).containsHeight 1 = store1.containsHeight 1 :=
  contains_height_iff_le_head (InMemoryStore.mk [] [] [] 1 1) store1 1 (by rfl)


/-- Association-list lookup hits a fresh head entry. -/
theorem lookup_cons_self {α : Type} (m : List (Nat × α)) (k : Nat) (v : α) :
    ((k, v) :: m).lookup k = some v := by
  simp [List.lookup]

/-- `setKey` overwrites the value found under an existing key. -/
theorem lookup_setKey_self {α : Type} (m : List (Nat × α)) (k : Nat) (v w : α)
    (hw : m.lookup k = some w) : (setKey m k v).lookup k = some v := by
  induction m with
  | nil => simp [List.lookup] at hw
  | cons p m ih =>
      obtain ⟨a, b⟩ := p
      simp only [setKey, List.map_cons]
      by_cases hak : a = k
      · subst hak
        rw [if_pos rfl]
        exact lookup_cons_self _ _ _
      · rw [if_neg (by simpa using hak)]
        have hba : (k == a) = false := by simpa using Ne.symm hak
        have hw' : List.lookup k m = some w := by
          simpa [List.lookup, hba] using hw
        simpa [List.lookup, hba] using ih hw'

/-- The cid-merging loop appends exactly the unseen cids of `news`, each
once, in first-occurrence order. -/
theorem mergeCids_eq_append_dedup (news existing : List Nat) :
    mergeCids existing news =
      existing ++ dedupFO (news.filter (· ∉ existing)) := by
  induction news generalizing existing with
  | nil => simp [mergeCids, dedupFO]
  | cons c news ih =>
      by_cases hc : c ∈ existing
      · have h1 : mergeCids existing (c :: news) = mergeCids existing news := by
          simp [mergeCids, hc]
        rw [h1, ih]
        simp [List.filter_cons, hc]
      · have h1 : mergeCids existing (c :: news) =
            mergeCids (existing ++ [c]) news := by
          simp [mergeCids, hc]
        rw [h1, ih]
        simp only [List.filter_cons, decide_not]
        rw [if_pos (by simpa using hc)]
        rw [List.append_assoc]
        simp only [List.cons_append, List.nil_append, dedupFO]
        refine congrArg _ (congrArg _ (congrArg _ ?_))
        rw [List.filter_filter]
        refine List.filter_congr fun a _ => ?_
        by_cases h1 : a ∈ existing <;> by_cases h2 : a = c <;>
          simp [h1, h2, List.mem_append]

/-- First-occurrence dedup of `L1 ++ L2` for duplicate-free `L1`: keep `L1`,
then the unseen part of `L2`. -/
theorem dedupFO_append_nodup (L1 : List Nat) (L2 : List Nat) (h : L1.Nodup) :
    dedupFO (L1 ++ L2) = L1 ++ dedupFO (L2.filter (· ∉ L1)) := by
  induction L1 generalizing L2 with
  | nil => simp
  | cons x xs ih =>
      simp only [List.cons_append, dedupFO]
      rw [List.filter_append]
      have hx : xs.filter (· ≠ x) = xs := by
        rw [List.filter_eq_self]
        intro a ha
        have : a ≠ x := by
          rintro rfl
          exact (List.nodup_cons.mp h).1 ha
        simpa using this
      rw [hx, ih (L2.filter (· ≠ x)) (List.nodup_cons.mp h).2]
      simp only [List.cons.injEq, true_and]
      refine congrArg _ (congrArg _ ?_)
      rw [List.filter_filter]
      refine List.filter_congr fun a _ => ?_
      by_cases h1 : a ∈ xs <;> by_cases h2 : a = x <;>
        simp [h1, h2, List.mem_cons]

/-- `update_sampling_metadata`, vacant branch: the cid list is stored as
given; only the sampling map and the cursor change. -/
theorem updateSampling_vacant (st : InMemoryStore) (h : Nat) (acc : Bool)
    (cids : List Nat) (hc : st.containsHeight h = true)
    (hn : st.sampling_data.lookup h = none) :
    (st.updateSamplingMetadata h acc cids).1.sampling_data
        = (h, ⟨acc, cids⟩) :: st.sampling_data ∧
      (st.updateSamplingMetadata h acc cids).1.head_height = st.head_height := by
  unfold InMemoryStore.updateSamplingMetadata
  rw [hc, hn]
  simp [InMemoryStore.updateLowestUnsampledHeight]

/-- `update_sampling_metadata`, occupied branch: the flag is overwritten and
the unseen cids appended. -/
theorem updateSampling_occupied (st : InMemoryStore) (h : Nat) (acc : Bool)
    (cids : List Nat) (m : SamplingMetadata) (hc : st.containsHeight h = true)
    (hm : st.sampling_data.lookup h = some m) :
    (st.updateSamplingMetadata h acc cids).1.sampling_data
      = setKey st.sampling_data h ⟨acc, mergeCids m.cids_sampled cids⟩ := by
  unfold InMemoryStore.updateSamplingMetadata
  rw [hc, hm]
  simp

/-- C2 (counterexample): on `store1` (header at height 1, no sampling entry),
updating height 1 with `L1 = [0, 0]` and then `L2 = []` leaves the stored cid
list `[0, 0]` — the first update keeps internal duplicates of `L1` — while
the claim demands `dedup(L1 ++ L2) = [0]`. -/
theorem update_sampling_metadata_no_dedup_counterexample :
    (((store1.updateSamplingMetadata 1 false [0, 0]).1.updateSamplingMetadata
          1 true []).1.sampling_data.lookup 1 = some ⟨true, [0, 0]⟩) ∧
      dedupFO ([0, 0] ++ []) = [0] ∧
      ¬ (((store1.updateSamplingMetadata 1 false [0, 0]).1.updateSamplingMetadata
            1 true []).1.sampling_data.lookup 1 =
          some ⟨true, dedupFO ([0, 0] ++ [])⟩) := by
  have hd : dedupFO ([0, 0] ++ []) = [0] := by simp [dedupFO]
  refine ⟨by rfl, hd, ?_⟩
  rw [hd]
  intro hcontra
  have h1 : (((store1.updateSamplingMetadata 1 false [0, 0]).1.updateSamplingMetadata
      1 true []).1.sampling_data.lookup 1) = some ⟨true, [0, 0]⟩ := by rfl
  rw [h1] at hcontra
  simp at hcontra

/-- C2 (amended): for a height `h` present in the store with no prior
sampling entry, the first update stores `accepted = acc1` and the cid list
`L1` verbatim; after a second update the entry holds `accepted = acc2` and
`L1` followed by the cids of `L2` not in `L1`, deduplicated, in
first-occurrence order — which equals `dedup(L1 ++ L2)` whenever `L1` has no
internal duplicates. -/
theorem update_sampling_metadata_merge (st : InMemoryStore) (h : Nat)
    (acc1 acc2 : Bool) (L1 L2 : List Nat)
    (hc : st.containsHeight h = true)
    (hnone : st.sampling_data.lookup h = none) :
    ((st.updateSamplingMetadata h acc1 L1).1.sampling_data.lookup h
        = some ⟨acc1, L1⟩) ∧
      (((st.updateSamplingMetadata h acc1 L1).1.updateSamplingMetadata
            h acc2 L2).1.sampling_data.lookup h
        = some ⟨acc2, L1 ++ dedupFO (L2.filter (· ∉ L1))⟩) ∧
      (L1.Nodup → L1 ++ dedupFO (L2.filter (· ∉ L1)) = dedupFO (L1 ++ L2)) := by
  obtain ⟨h1, hhead⟩ := updateSampling_vacant st h acc1 L1 hc hnone
  have hl1 : (st.updateSamplingMetadata h acc1 L1).1.sampling_data.lookup h
      = some ⟨acc1, L1⟩ := by
    rw [h1]; exact lookup_cons_self _ _ _
  have hc1 : (st.updateSamplingMetadata h acc1 L1).1.containsHeight h = true := by
    unfold InMemoryStore.containsHeight at hc ⊢
    rw [hhead]; exact hc
  refine ⟨hl1, ?_, fun hnd => (dedupFO_append_nodup L1 L2 hnd).symm⟩
  rw [updateSampling_occupied _ h acc2 L2 ⟨acc1, L1⟩ hc1 hl1]
  rw [show (⟨acc1, L1⟩ : SamplingMetadata).cids_sampled = L1 from rfl,
    mergeCids_eq_append_dedup]
  exact lookup_setKey_self _ _ _ _ hl1

/-- C2 witness of the amended claim at `store1`, `L1 = [5]`, `L2 = [5, 6]`. -/
theorem update_sampling_metadata_merge_witness :
    ((store1.updateSamplingMetadata 1 false [5]).1.sampling_data.lookup 1
        = some ⟨false, [5]⟩) ∧
      (((store1.updateSamplingMetadata 1 false [5]).1.updateSamplingMetadata
            1 true [5, 6]).1.sampling_data.lookup 1
        = some ⟨true, [5] ++ dedupFO (List.filter (· ∉ [5]) [5, 6])⟩) ∧
      (List.Nodup [5] → [5] ++ dedupFO (List.filter (· ∉ [5]) [5, 6])
        = dedupFO ([5] ++ [5, 6])) :=
  update_sampling_metadata_merge store1 1 false true [5] [5, 6] (by rfl) (by rfl)

/-- The cursor scan never moves downwards. -/
theorem firstGapAux_le (keys : List Nat) :
    ∀ fuel cur, cur ≤ firstGapAux keys fuel cur := by
  intro fuel
  induction fuel with
  | zero => intro cur; simp [firstGapAux]
  | succ fuel ih =>
      intro cur
      unfold firstGapAux
      split
      · exact le_trans (Nat.le_succ cur) (ih (cur + 1))
      · exact le_refl cur

/-- Counting keys at or above `cur` splits into those above `cur` and the
occurrences of `cur` itself. -/
theorem countP_ge_split (keys : List Nat) (cur : Nat) :
    keys.countP (fun k => decide (cur ≤ k))
      = keys.countP (fun k => decide (cur + 1 ≤ k)) + keys.count cur := by
  induction keys with
  | nil => simp
  | cons a keys ih =>
      simp only [List.countP_cons, List.count_cons, ih]
      split_ifs <;> simp_all <;> omega

/-- Adequacy of the cursor scan: with enough fuel it lands on the first
height at or above `cur` that is not a key, and every height in between is a
key. -/
theorem firstGapAux_spec (keys : List Nat) :
    ∀ fuel cur, keys.countP (fun k => decide (cur ≤ k)) < fuel →
      keys.contains (firstGapAux keys fuel cur) = false ∧
        ∀ m, cur ≤ m → m < firstGapAux keys fuel cur →
          keys.contains m = true := by
  intro fuel
  induction fuel with
  | zero => intro cur h; exact absurd h (Nat.not_lt_zero _)
  | succ fuel ih =>
      intro cur h
      unfold firstGapAux
      by_cases hc : keys.contains cur
      · rw [if_pos hc]
        have hmem : cur ∈ keys := by simpa using hc
        have hpos : 0 < keys.count cur := List.count_pos_iff.mpr hmem
        have hlt : keys.countP (fun k => decide (cur + 1 ≤ k)) < fuel := by
          have := countP_ge_split keys cur
          omega
        obtain ⟨g1, g2⟩ := ih (cur + 1) hlt
        refine ⟨g1, fun m hm1 hm2 => ?_⟩
        rcases Nat.eq_or_lt_of_le hm1 with heq | hlt'
        · rw [← heq]; exact hc
        · exact g2 m hlt' hm2
      · rw [if_neg hc]
        refine ⟨by simpa using hc, fun m hm1 hm2 => absurd (lt_of_le_of_lt hm1 hm2) (lt_irrefl _)⟩

/-- Association-list lookup succeeds exactly on the stored keys. -/
theorem lookup_isSome_iff_contains {α : Type} (m : List (Nat × α)) (k : Nat) :
    (m.lookup k).isSome = (m.map Prod.fst).contains k := by
  induction m with
  | nil => simp [List.lookup]
  | cons p m ih =>
      obtain ⟨a, b⟩ := p
      by_cases hak : k = a
      · subst hak
        simp [List.lookup]
      · have hba : (k == a) = false := by simpa using hak
        simp [List.lookup, hba, ih]

/-- A fresh head entry keeps every successful lookup successful. -/
theorem lookup_cons_isSome {α : Type} (m : List (Nat × α)) (k j : Nat) (v : α)
    (hs : (m.lookup j).isSome = true) : (((k, v) :: m).lookup j).isSome = true := by
  by_cases h : j = k
  · subst h; simp [List.lookup]
  · have hb : (j == k) = false := by simpa using h
    simpa [List.lookup, hb] using hs

/-- `setKey` does not change which lookups succeed. -/
theorem lookup_setKey_isSome {α : Type} (m : List (Nat × α)) (k j : Nat) (v : α) :
    ((setKey m k v).lookup j).isSome = (m.lookup j).isSome := by
  induction m with
  | nil => simp [setKey]
  | cons p m ih =>
      obtain ⟨a, b⟩ := p
      simp only [setKey, List.map_cons]
      by_cases hak : a = k
      · rw [if_pos (by simpa using hak)]
        subst hak
        by_cases hj : j = a
        · subst hj; simp [List.lookup]
        · have hb : (j == a) = false := by simpa using hj
          simpa [List.lookup, hb] using ih
      · rw [if_neg (by simpa using hak)]
        by_cases hj : j = a
        · subst hj; simp [List.lookup]
        · have hb : (j == a) = false := by simpa using hj
          simpa [List.lookup, hb] using ih

/-- `update_lowest_unsampled_height`: only the cursor changes; it does not
decrease, lands on a missing key, and skips only present keys. -/
theorem updateLowestUnsampledHeight_spec (st : InMemoryStore) :
    st.updateLowestUnsampledHeight.1.headers = st.headers ∧
    st.updateLowestUnsampledHeight.1.sampling_data = st.sampling_data ∧
    st.updateLowestUnsampledHeight.1.head_height = st.head_height ∧
    st.updateLowestUnsampledHeight.1.lowest_unsampled_height
      = st.updateLowestUnsampledHeight.2 ∧
    st.lowest_unsampled_height ≤ st.updateLowestUnsampledHeight.2 ∧
    (st.sampling_data.lookup st.updateLowestUnsampledHeight.2).isSome = false ∧
    ∀ m, st.lowest_unsampled_height ≤ m → m < st.updateLowestUnsampledHeight.2 →
      (st.sampling_data.lookup m).isSome = true := by
  have hfuel : (st.sampling_data.map Prod.fst).countP
      (fun k => decide (st.lowest_unsampled_height ≤ k))
      < (st.sampling_data.map Prod.fst).length + 1 :=
    Nat.lt_succ_of_le (List.countP_le_length _)
  obtain ⟨g1, g2⟩ := firstGapAux_spec (st.sampling_data.map Prod.fst)
    ((st.sampling_data.map Prod.fst).length + 1) st.lowest_unsampled_height hfuel
  refine ⟨rfl, rfl, rfl, rfl, firstGapAux_le _ _ _, ?_, ?_⟩
  · rw [lookup_isSome_iff_contains]
    exact g1
  · intro m hm1 hm2
    rw [lookup_isSome_iff_contains]
    exact g2 m hm1 hm2

/-- `append_single_unchecked` never touches the sampling data or the cursor. -/
theorem append_preserves_sampling (st : InMemoryStore) (h : StoreHeader) :
    (st.appendSingleUnchecked h).1.sampling_data = st.sampling_data ∧
      (st.appendSingleUnchecked h).1.lowest_unsampled_height
        = st.lowest_unsampled_height := by
  simp only [InMemoryStore.appendSingleUnchecked]
  split_ifs <;> simp

/-- Any single store call preserves the cursor invariant and never moves the
cursor down. -/
theorem step_preserves_cursorInv (st : InMemoryStore) (op : StoreOp)
    (h : CursorInv st) :
    CursorInv (st.step op) ∧
      st.lowest_unsampled_height ≤ (st.step op).lowest_unsampled_height := by
  obtain ⟨hge, hnone, hbelow⟩ := h
  cases op with
  | append hd =>
      obtain ⟨e1, e2⟩ := append_preserves_sampling st hd
      dsimp only [InMemoryStore.step]
      refine ⟨⟨?_, ?_, ?_⟩, ?_⟩
      · rw [e2]; exact hge
      · rw [e1, e2]; exact hnone
      · rw [e1, e2]; exact hbelow
      · rw [e2]
  | updateSampling hh acc cids =>
      dsimp only [InMemoryStore.step]
      unfold InMemoryStore.updateSamplingMetadata
      by_cases hc : st.containsHeight hh = false
      · rw [if_pos hc]
        exact ⟨⟨hge, hnone, hbelow⟩, le_refl _⟩
      · rw [if_neg hc]
        rcases hlk : st.sampling_data.lookup hh with _ | md
        · -- vacant: insert then rescan
          dsimp only
          obtain ⟨u1, u2, u3, u4, u5, u6, u7⟩ := updateLowestUnsampledHeight_spec
            { st with sampling_data := (hh, ⟨acc, cids⟩) :: st.sampling_data }
          dsimp only at u2 u4 u5 u6 u7
          refine ⟨⟨?_, ?_, ?_⟩, ?_⟩
          · rw [u4]; exact le_trans hge u5
          · rw [u4, u2]
            exact Option.not_isSome_iff_eq_none.mp (by simp [u6])
          · intro m hm1 hm2
            rw [u4] at hm2
            rw [u2]
            by_cases hmlow : m < st.lowest_unsampled_height
            · exact lookup_cons_isSome _ _ _ _ (hbelow m hm1 hmlow)
            · exact u7 m (by omega) hm2
          · rw [u4]; exact u5
        · -- occupied: in-place overwrite, cursor unchanged
          dsimp only
          refine ⟨⟨hge, ?_, ?_⟩, le_refl _⟩
          · have hs := lookup_setKey_isSome st.sampling_data hh
              st.lowest_unsampled_height ⟨acc, mergeCids md.cids_sampled cids⟩
            rw [hnone] at hs
            exact Option.not_isSome_iff_eq_none.mp (by simp [hs])
          · intro m hm1 hm2
            rw [lookup_setKey_isSome]
            exact hbelow m hm1 hm2

/-- The cursor never decreases under any single call, for every state. -/
theorem step_cursor_mono (st : InMemoryStore) (op : StoreOp) :
    st.lowest_unsampled_height ≤ (st.step op).lowest_unsampled_height := by
  cases op with
  | append hd =>
      obtain ⟨_, e2⟩ := append_preserves_sampling st hd
      dsimp only [InMemoryStore.step]
      rw [e2]
  | updateSampling hh acc cids =>
      dsimp only [InMemoryStore.step]
      unfold InMemoryStore.updateSamplingMetadata
      by_cases hc : st.containsHeight hh = false
      · rw [if_pos hc]
      · rw [if_neg hc]
        rcases hlk : st.sampling_data.lookup hh with _ | md
        · dsimp only
          obtain ⟨_, _, _, u4, u5, _, _⟩ := updateLowestUnsampledHeight_spec
            { st with sampling_data := (hh, ⟨acc, cids⟩) :: st.sampling_data }
          dsimp only at u4 u5
          rw [u4]
          exact u5
        · dsimp only
          exact le_refl _

/-- The cursor never decreases across any sequence of calls. -/
theorem exec_cursor_mono :
    ∀ (ops : List StoreOp) (st : InMemoryStore),
      st.lowest_unsampled_height ≤ (st.exec ops).lowest_unsampled_height := by
  intro ops
  induction ops with
  | nil => intro st; exact le_refl _
  | cons op ops ih =>
      intro st
      exact le_trans (step_cursor_mono st op) (ih (st.step op))

/-- The cursor invariant holds in every reachable state. -/
theorem exec_cursorInv (ops : List StoreOp) :
    CursorInv (InMemoryStore.new.exec ops) := by
  suffices h : ∀ (ops : List StoreOp) (st : InMemoryStore), CursorInv st →
      CursorInv (st.exec ops) by
    refine h ops InMemoryStore.new ⟨le_refl 1, rfl, ?_⟩
    intro m hm1 hm2
    have hone : InMemoryStore.new.lowest_unsampled_height = 1 := rfl
    omega
  intro ops
  induction ops with
  | nil => intro st h; exact h
  | cons op ops ih =>
      intro st h
      exact ih _ (step_preserves_cursorInv st op h).1

/-- A successful `update_sampling_metadata` returns the post-state cursor. -/
theorem updateSampling_returns_cursor (st : InMemoryStore) (h : Nat) (acc : Bool)
    (cids : List Nat) (st' : InMemoryStore) (r : Nat)
    (he : st.updateSamplingMetadata h acc cids = (st', .ok r)) :
    r = st'.lowest_unsampled_height := by
  unfold InMemoryStore.updateSamplingMetadata at he
  by_cases hc : st.containsHeight h = false
  · rw [if_pos hc] at he
    simp at he
  · rw [if_neg hc] at he
    rcases hlk : st.sampling_data.lookup h with _ | md <;> rw [hlk] at he
    · dsimp only at he
      rw [Prod.mk.injEq] at he
      obtain ⟨he1, he2⟩ := he
      have he2' : ({ st with sampling_data := (h, ⟨acc, cids⟩) :: st.sampling_data }
          : InMemoryStore).updateLowestUnsampledHeight.2 = r := by
        simpa using he2
      obtain ⟨_, _, _, u4, _, _, _⟩ := updateLowestUnsampledHeight_spec
        { st with sampling_data := (h, ⟨acc, cids⟩) :: st.sampling_data }
      rw [← he1, u4, he2']
    · dsimp only at he
      rw [Prod.mk.injEq] at he
      obtain ⟨he1, he2⟩ := he
      have he2' : st.lowest_unsampled_height = r := by simpa using he2
      rw [← he1, ← he2']

/-- C7: the sampling cursor starts at 1 on a fresh store, never decreases
across any sequence of store operations, and after every successful
`update_sampling_metadata` on a reachable store it equals the smallest
height ≥ 1 with no sampling entry (every height in `[1, cursor)` has one,
the cursor itself has none); the call also returns that cursor. -/
theorem next_unsampled_height_correct (ops : List StoreOp) (h : Nat)
    (acc : Bool) (cids : List Nat) (st' : InMemoryStore) (r : Nat)
    (hup : (InMemoryStore.new.exec ops).updateSamplingMetadata h acc cids
      = (st', .ok r)) :
    InMemoryStore.new.lowest_unsampled_height = 1 ∧
      (∀ (st₀ : InMemoryStore) (ops₀ : List StoreOp),
        st₀.lowest_unsampled_height ≤ (st₀.exec ops₀).lowest_unsampled_height) ∧
      r = st'.lowest_unsampled_height ∧
      1 ≤ st'.lowest_unsampled_height ∧
      st'.sampling_data.lookup st'.lowest_unsampled_height = none ∧
      (∀ m, 1 ≤ m → m < st'.lowest_unsampled_height →
        (st'.sampling_data.lookup m).isSome = true) := by
  have hstep : (InMemoryStore.new.exec ops).step (StoreOp.updateSampling h acc cids)
      = st' := by
    dsimp only [InMemoryStore.step]
    rw [hup]
  have hinv : CursorInv st' := by
    rw [← hstep]
    exact (step_preserves_cursorInv _ _ (exec_cursorInv ops)).1
  obtain ⟨i1, i2, i3⟩ := hinv
  exact ⟨rfl, fun st₀ ops₀ => exec_cursor_mono ops₀ st₀,
    updateSampling_returns_cursor _ _ _ _ _ _ hup, i1, i2, i3⟩

/-- C7 witness: append height 1, then successfully sample height 1; the
cursor moves from 1 to 2 and 2 has no sampling entry while 1 has one. -/
theorem next_unsampled_height_correct_witness :
    InMemoryStore.new.lowest_unsampled_height = 1 ∧
      (∀ (st₀ : InMemoryStore) (ops₀ : List StoreOp),
        st₀.lowest_unsampled_height ≤ (st₀.exec ops₀).lowest_unsampled_height) ∧
      (2 : Nat) = store1Sampled.lowest_unsampled_height ∧
      1 ≤ store1Sampled.lowest_unsampled_height ∧
      store1Sampled.sampling_data.lookup store1Sampled.lowest_unsampled_height = none ∧
      (∀ m, 1 ≤ m → m < store1Sampled.lowest_unsampled_height →
        (store1Sampled.sampling_data.lookup m).isSome = true) :=
  next_unsampled_height_correct [.append ⟨10, 1⟩] 1 true [] store1Sampled 2 (by rfl)


/-- C3: `calculate_range_to_fetch` returns `1..=min(H, L)` on an empty range
set; `top.end+1 ..= min(H, top.end+L)` while the topmost range is below the
subjective head `H`; otherwise the rightmost `L` heights of the gap
`prev_end+1 ..= top.start-1` below the topmost range (`prev_end` being the
second-topmost range's end, or 0); and an empty range when the topmost range
covers `1..=H`. -/
theorem calculate_range_to_fetch_correct (H : Nat) (R : List (Nat × Nat)) (L : Nat)
    (_hH : 1 ≤ H) (hL : 1 ≤ L) (hR : ValidRanges R) :
    (R = [] → calculate_range_to_fetch H R L = (1, min H L)) ∧
      (∀ top, R.getLast? = some top → top.2 < H →
        calculate_range_to_fetch H R L = (top.2 + 1, min H (top.2 + L))) ∧
      (∀ top, R.getLast? = some top → ¬ top.2 < H →
        calculate_range_to_fetch H R L
          = (max ((R.dropLast.getLast?.map Prod.snd).getD 0 + 1) (top.1 - L),
              top.1 - 1)) ∧
      (∀ top, R.getLast? = some top → top.1 = 1 → H ≤ top.2 →
        (calculate_range_to_fetch H R L).2 < (calculate_range_to_fetch H R L).1) := by
  refine ⟨?_, ?_, ?_, ?_⟩
  · rintro rfl
    simp only [calculate_range_to_fetch, getMostRecentMissingRange, List.getLast?_nil,
      truncateRight]
    rw [show 1 + L - 1 = L by omega]
  · intro top hlast hlt
    simp only [calculate_range_to_fetch, getMostRecentMissingRange, hlast]
    rw [if_pos hlt]
    simp only [truncateRight]
    rw [show top.2 + 1 + L - 1 = top.2 + L by omega]
  · intro top hlast hge
    have hmem : top ∈ R := by
      obtain ⟨h1, h2⟩ := List.mem_getLast?_eq_getLast (l := R) (x := top)
        (by simp [hlast])
      rw [h2]; exact List.getLast_mem h1
    have htop1 : 1 ≤ top.1 := (hR.1 top hmem).1
    simp only [calculate_range_to_fetch, getMostRecentMissingRange, hlast]
    rw [if_neg hge]
    simp only [truncateLeft]
    rw [show top.1 - 1 + 1 - L = top.1 - L by omega]
  · intro top hlast htop1 hH2
    have hne : ¬ top.2 < H := by omega
    simp only [calculate_range_to_fetch, getMostRecentMissingRange, hlast]
    rw [if_neg hne]
    simp only [truncateLeft]
    have hmax := Nat.le_max_left
      ((R.dropLast.getLast?.map Prod.snd).getD 0 + 1) (top.1 - 1 + 1 - L)
    simp only [htop1] at *
    omega

/-- C3 witness at `H = 10`, `R = [(4, 6)]`, `L = 3` (catching-up case:
`7..=9` is returned). -/
theorem calculate_range_to_fetch_correct_witness :
    (([(4, 6)] : List (Nat × Nat)) = [] →
        calculate_range_to_fetch 10 [(4, 6)] 3 = (1, min 10 3)) ∧
      (∀ top, ([(4, 6)] : List (Nat × Nat)).getLast? = some top → top.2 < 10 →
        calculate_range_to_fetch 10 [(4, 6)] 3 = (top.2 + 1, min 10 (top.2 + 3))) ∧
      (∀ top, ([(4, 6)] : List (Nat × Nat)).getLast? = some top → ¬ top.2 < 10 →
        calculate_range_to_fetch 10 [(4, 6)] 3
          = (max ((([(4, 6)] : List (Nat × Nat)).dropLast.getLast?.map Prod.snd).getD 0 + 1)
              (top.1 - 3), top.1 - 1)) ∧
      (∀ top, ([(4, 6)] : List (Nat × Nat)).getLast? = some top → top.1 = 1 → 10 ≤ top.2 →
        (calculate_range_to_fetch 10 [(4, 6)] 3).2
          < (calculate_range_to_fetch 10 [(4, 6)] 3).1) :=
  calculate_range_to_fetch_correct 10 [(4, 6)] 3 (by decide) (by decide)
    ⟨by norm_num, List.pairwise_singleton _ _⟩


/-- `mapM` over `Except` succeeds pointwise. -/
theorem mapM_ok_of_forall {α : Type} (g : Nat → Except StoreError α)
    (f : Nat → α) :
    ∀ l : List Nat, (∀ h ∈ l, g h = .ok (f h)) → l.mapM g = .ok (l.map f) := by
  intro l
  induction l with
  | nil => intro _; rfl
  | cons a l ih =>
      intro hall
      rw [List.mapM_cons, hall a (by simp), ih fun h hm => hall h (by simp [hm])]
      rfl

/-- C4: `get_range` against a store with head height `H ≥ 1` resolves an
unbounded start to 1 and an unbounded end to `H`; bound resolution fails with
`NotFound` exactly when the resolved start is 0 or exceeds `H` or the
resolved end exceeds `H`; an empty resolved range yields `[]`; otherwise the
headers at the resolved heights are returned in ascending order. -/
theorem get_range_correct (H : Nat) (hH : 1 ≤ H)
    (getByHeight : Nat → Except StoreError StoreHeader) (f : Nat → StoreHeader)
    (sb eb : HeightBound) :
    (∀ r, to_headers_range .unbounded eb H = .ok r → r.1 = 1) ∧
      (∀ r, to_headers_range sb .unbounded H = .ok r → r.2 = H) ∧
      (to_headers_range sb eb H = .error .notFound ↔
        resolvedStart sb = 0 ∨ H < resolvedStart sb ∨ H < resolvedEnd H eb) ∧
      (∀ s e, to_headers_range sb eb H = .ok (s, e) → e < s →
        get_range (.ok H) getByHeight sb eb = .ok []) ∧
      (∀ s e, to_headers_range sb eb H = .ok (s, e) →
        (∀ h, s ≤ h → h ≤ e → getByHeight h = .ok (f h)) →
        get_range (.ok H) getByHeight sb eb = .ok ((heightsList s e).map f)) ∧
      List.Pairwise (· < ·) (heightsList (resolvedStart sb) (resolvedEnd H eb)) := by
  refine ⟨?_, ?_, ?_, ?_, ?_, ?_⟩
  · intro r hr
    rcases eb <;>
      simp [to_headers_range, bind, Except.bind, pure, Except.pure] at hr <;>
      (try split_ifs at hr) <;> (try simp_all [Prod.ext_iff])
  · intro r hr
    rcases sb <;>
      simp [to_headers_range, bind, Except.bind, pure, Except.pure] at hr <;>
      (try split_ifs at hr) <;> (try simp_all [Prod.ext_iff])
  · rcases sb <;> rcases eb <;>
      simp [to_headers_range, bind, Except.bind, pure, Except.pure,
        resolvedStart, resolvedEnd] <;>
      (try split_ifs) <;> (try simp_all) <;> omega
  · intro s e hok hlt
    have hempty : heightsList s e = [] := by
      unfold heightsList
      rw [show e + 1 - s = 0 by omega]
      rfl
    simp [get_range, bind, Except.bind, pure, Except.pure, hok, hempty]
    rfl
  · intro s e hok hall
    simp only [get_range, bind, Except.bind, hok]
    exact mapM_ok_of_forall getByHeight f _ fun h hm => by
      rw [heightsList, List.mem_range'_1] at hm
      exact hall h hm.1 (by omega)
  · exact List.pairwise_lt_range' _ _

/-- C4 witness at head `H = 3`, bounds `2..` (excluded-start 1, unbounded
end), over the store mapping height `h` to the header `⟨h, h⟩`. -/
theorem get_range_correct_witness :
    (∀ r, to_headers_range .unbounded .unbounded 3 = .ok r → r.1 = 1) ∧
      (∀ r, to_headers_range (.excluded 1) .unbounded 3 = .ok r → r.2 = 3) ∧
      (to_headers_range (.excluded 1) .unbounded 3 = .error .notFound ↔
        resolvedStart (.excluded 1) = 0 ∨ 3 < resolvedStart (.excluded 1) ∨
          3 < resolvedEnd 3 .unbounded) ∧
      (∀ s e, to_headers_range (.excluded 1) .unbounded 3 = .ok (s, e) → e < s →
        get_range (.ok 3) (fun h => .ok ⟨h, h⟩) (.excluded 1) .unbounded = .ok []) ∧
      (∀ s e, to_headers_range (.excluded 1) .unbounded 3 = .ok (s, e) →
        (∀ h, s ≤ h → h ≤ e → (fun h => (.ok ⟨h, h⟩ : Except StoreError StoreHeader)) h
          = .ok ((fun h => (⟨h, h⟩ : StoreHeader)) h)) →
        get_range (.ok 3) (fun h => .ok ⟨h, h⟩) (.excluded 1) .unbounded
          = .ok ((heightsList s e).map fun h => ⟨h, h⟩)) ∧
      List.Pairwise (· < ·)
        (heightsList (resolvedStart (.excluded 1)) (resolvedEnd 3 .unbounded)) := by
  have h1 := get_range_correct 3 (by decide) (fun h => .ok ⟨h, h⟩)
    (fun h => ⟨h, h⟩) (.excluded 1) .unbounded
  have h2 := get_range_correct 3 (by decide) (fun h => .ok ⟨h, h⟩)
    (fun h => ⟨h, h⟩) .unbounded .unbounded
  exact ⟨h2.1, h1.2.1, h1.2.2.1, h1.2.2.2.1, h1.2.2.2.2.1, h1.2.2.2.2.2⟩


/-- `natToLE` produces exactly `w` bytes. -/
theorem natToLE_length : ∀ (w n : Nat), (natToLE w n).length = w
  | 0, _ => rfl
  | w + 1, n => by simp [natToLE, natToLE_length w]

/-- Little-endian decoding inverts encoding for values that fit. -/
theorem leToNat_natToLE : ∀ (w n : Nat), n < 256 ^ w → leToNat (natToLE w n) = n
  | 0, n, h => by
      simp [pow_zero] at h
      simp [natToLE, leToNat, h]
  | w + 1, n, h => by
      have hdiv : n / 256 < 256 ^ w := by
        rw [Nat.div_lt_iff_lt_mul (by norm_num)]
        calc n < 256 ^ (w + 1) := h
        _ = 256 ^ w * 256 := by ring
      simp only [natToLE, leToNat, leToNat_natToLE w (n / 256) hdiv]
      omega

/-- The wire layout of `NamespacedDataId::encode`: total length 71 and the
four fixed-width slices. -/
theorem encode_slices (id : NamespacedDataId) (hns : id.ns.length = 29)
    (hhash : id.hash.length = 32) :
    id.encode.length = 71 ∧
      id.encode.take 2 = natToLE 2 id.row_index ∧
      (id.encode.drop 2).take 32 = id.hash ∧
      (id.encode.drop 34).take 8 = natToLE 8 id.block_height ∧
      (id.encode.drop 42).take 29 = id.ns := by
  have h2 : (natToLE 2 id.row_index).length = 2 := natToLE_length 2 _
  have h8 : (natToLE 8 id.block_height).length = 8 := natToLE_length 8 _
  have hassoc : id.encode
      = natToLE 2 id.row_index ++ (id.hash ++ (natToLE 8 id.block_height ++ id.ns)) := by
    simp [NamespacedDataId.encode]
  refine ⟨?_, ?_, ?_, ?_, ?_⟩
  · simp [NamespacedDataId.encode, h2, h8, hns, hhash]
  · rw [hassoc, List.take_left' h2]
  · rw [hassoc, List.drop_left' h2, List.take_left' hhash]
  · rw [hassoc, show (34 : Nat) = (natToLE 2 id.row_index).length + 32 by rw [h2],
      List.drop_append, show (32 : Nat) = id.hash.length by rw [hhash]]
    rw [List.drop_left' rfl]
    exact List.take_left' h8
  · rw [hassoc, show (42 : Nat) = (natToLE 2 id.row_index).length + 40 by rw [h2],
      List.drop_append, show (40 : Nat) = id.hash.length + 8 by rw [hhash],
      List.drop_append, List.drop_left' h8]
    exact List.take_of_length_le (le_of_eq hns)

/-- `decode` inverts `encode` on well-formed ids. -/
theorem decode_encode (id : NamespacedDataId) (hv : id.Valid) :
    NamespacedDataId.decode id.encode = .ok id := by
  obtain ⟨hns, _, hrow, hhash, _, hbh1, hbh2⟩ := hv
  obtain ⟨hlen, ht2, ht32, ht8, ht29⟩ := encode_slices id hns hhash
  unfold NamespacedDataId.decode
  rw [if_neg (by rw [hlen]; simp [NAMESPACED_DATA_ID_SIZE])]
  dsimp only
  rw [ht2, ht8, ht32, ht29,
    leToNat_natToLE 2 id.row_index (by norm_num at hrow ⊢; exact hrow),
    leToNat_natToLE 8 id.block_height (by norm_num at hbh2 ⊢; exact hbh2)]
  rw [if_neg (by omega)]

/-- The CID built from a valid id decodes back to it. -/
theorem fromCid_toCid (id : NamespacedDataId) (hv : id.Valid) :
    NamespacedDataId.fromCid id.toCid = .ok id := by
  have hlen := (encode_slices id hv.1 hv.2.2.2.1).1
  unfold NamespacedDataId.fromCid NamespacedDataId.toCid
  rw [if_neg (by simp), if_neg (by simp [hlen, NAMESPACED_DATA_ID_SIZE]),
    if_neg (by simp)]
  exact decode_encode id hv

/-- C5: converting a valid namespaced-data id to a CID and back is the
identity; the CID's digest is the identity encoding `row_index (u16 LE) |
hash (32) | block_height (u64 LE) | namespace (29)` with codec `0x7820` and
multihash code `0x7821`; distinct valid ids give distinct CIDs; and decoding
rejects a wrong codec, a wrong digest length, a wrong multihash code, and a
zero block height. -/
theorem namespaced_data_cid_correct (id id2 : NamespacedDataId) (cid : Cid)
    (hv : id.Valid) (hv2 : id2.Valid) :
    NamespacedDataId.fromCid id.toCid = .ok id ∧
      id.toCid = ⟨NAMESPACED_DATA_ID_CODEC, NAMESPACED_DATA_ID_MULTIHASH_CODE,
        natToLE 2 id.row_index ++ id.hash ++ natToLE 8 id.block_height ++ id.ns⟩ ∧
      (id ≠ id2 → id.toCid ≠ id2.toCid) ∧
      (cid.codec ≠ NAMESPACED_DATA_ID_CODEC →
        NamespacedDataId.fromCid cid = .error (.invalidCidCodec cid.codec)) ∧
      (cid.codec = NAMESPACED_DATA_ID_CODEC →
        cid.digest.length ≠ NAMESPACED_DATA_ID_SIZE →
        NamespacedDataId.fromCid cid
          = .error (.invalidMultihashLength cid.digest.length)) ∧
      (cid.codec = NAMESPACED_DATA_ID_CODEC →
        cid.digest.length = NAMESPACED_DATA_ID_SIZE →
        cid.mhCode ≠ NAMESPACED_DATA_ID_MULTIHASH_CODE →
        NamespacedDataId.fromCid cid = .error
          (.invalidMultihashCode cid.mhCode NAMESPACED_DATA_ID_MULTIHASH_CODE)) ∧
      (∀ id0 : NamespacedDataId, id0.ns.length = 29 → id0.hash.length = 32 →
        id0.block_height = 0 →
        NamespacedDataId.fromCid id0.toCid = .error .invalidCid) := by
  refine ⟨fromCid_toCid id hv, by simp [NamespacedDataId.toCid, NamespacedDataId.encode],
    ?_, ?_, ?_, ?_, ?_⟩
  · intro hne heq
    apply hne
    have h := congrArg NamespacedDataId.fromCid heq
    rw [fromCid_toCid id hv, fromCid_toCid id2 hv2] at h
    simpa using h
  · intro hc
    unfold NamespacedDataId.fromCid
    rw [if_pos hc]
  · intro hc hlen
    unfold NamespacedDataId.fromCid
    rw [if_neg (by simp [hc]), if_pos hlen]
  · intro hc hlen hm
    unfold NamespacedDataId.fromCid
    rw [if_neg (by simp [hc]), if_neg (by simp [hlen]), if_pos hm]
  · intro id0 hns hhash hbh
    obtain ⟨hlen, ht2, ht32, ht8, ht29⟩ := encode_slices id0 hns hhash
    unfold NamespacedDataId.fromCid NamespacedDataId.toCid
    rw [if_neg (by simp), if_neg (by simp [hlen, NAMESPACED_DATA_ID_SIZE]),
      if_neg (by simp)]
    unfold NamespacedDataId.decode
    rw [if_neg (by rw [hlen]; simp [NAMESPACED_DATA_ID_SIZE])]
    dsimp only
    rw [ht8, hbh]
    rw [if_pos (by simp [natToLE, leToNat])]

/-- C5 witness at two concrete ids and a wrong-codec CID. -/
theorem namespaced_data_cid_correct_witness :
    NamespacedDataId.fromCid sampleDataId.toCid = .ok sampleDataId ∧
      sampleDataId.toCid = ⟨NAMESPACED_DATA_ID_CODEC, NAMESPACED_DATA_ID_MULTIHASH_CODE,
        natToLE 2 sampleDataId.row_index ++ sampleDataId.hash ++
          natToLE 8 sampleDataId.block_height ++ sampleDataId.ns⟩ ∧
      (sampleDataId ≠ sampleDataId2 → sampleDataId.toCid ≠ sampleDataId2.toCid) ∧
      ((Cid.mk 4321 0 []).codec ≠ NAMESPACED_DATA_ID_CODEC →
        NamespacedDataId.fromCid (Cid.mk 4321 0 [])
          = .error (.invalidCidCodec (Cid.mk 4321 0 []).codec)) ∧
      ((Cid.mk 4321 0 []).codec = NAMESPACED_DATA_ID_CODEC →
        (Cid.mk 4321 0 []).digest.length ≠ NAMESPACED_DATA_ID_SIZE →
        NamespacedDataId.fromCid (Cid.mk 4321 0 [])
          = .error (.invalidMultihashLength (Cid.mk 4321 0 []).digest.length)) ∧
      ((Cid.mk 4321 0 []).codec = NAMESPACED_DATA_ID_CODEC →
        (Cid.mk 4321 0 []).digest.length = NAMESPACED_DATA_ID_SIZE →
        (Cid.mk 4321 0 []).mhCode ≠ NAMESPACED_DATA_ID_MULTIHASH_CODE →
        NamespacedDataId.fromCid (Cid.mk 4321 0 []) = .error
          (.invalidMultihashCode (Cid.mk 4321 0 []).mhCode
            NAMESPACED_DATA_ID_MULTIHASH_CODE)) ∧
      (∀ id0 : NamespacedDataId, id0.ns.length = 29 → id0.hash.length = 32 →
        id0.block_height = 0 →
        NamespacedDataId.fromCid id0.toCid = .error .invalidCid) :=
  namespaced_data_cid_correct sampleDataId sampleDataId2 (Cid.mk 4321 0 [])
    (by decide) (by decide)


/-- `concatHeights` unfolds on a cons cell. -/
theorem concatHeights_cons (r : Nat × Nat) (rest : List (Nat × Nat)) :
    concatHeights (r :: rest) = heightsList r.1 r.2 ++ concatHeights rest := by
  simp [concatHeights]

/-- Adjacent height intervals concatenate. -/
theorem heightsList_append (s m e : Nat) (h1 : s ≤ m + 1) (h2 : m ≤ e) :
    heightsList s m ++ heightsList (m + 1) e = heightsList s e := by
  unfold heightsList
  have h := List.range'_append s (m + 1 - s) (e + 1 - (m + 1)) 1
  rw [show s + 1 * (m + 1 - s) = m + 1 by omega] at h
  rw [show e + 1 - (m + 1) + (m + 1 - s) = e + 1 - s by omega] at h
  exact h

/-- Splitting a height interval after its first `L` elements. -/
theorem heightsList_split (s e L : Nat) (hL : 1 ≤ L) (h : s + L ≤ e + 1) :
    heightsList s e = heightsList s (s + L - 1) ++ heightsList (s + L) e := by
  have h1 := heightsList_append s (s + L - 1) e (by omega) (by omega)
  rw [show s + L - 1 + 1 = s + L by omega] at h1
  exact h1.symm

/-- The length of a height interval. -/
theorem heightsList_length (s e : Nat) : (heightsList s e).length = e + 1 - s := by
  simp [heightsList]

/-- Membership in the concatenated heights of a range list. -/
theorem mem_concatHeights (st : List (Nat × Nat)) (x : Nat) :
    x ∈ concatHeights st ↔ ∃ r ∈ st, r.1 ≤ x ∧ x ≤ r.2 := by
  simp only [concatHeights, List.mem_flatten, List.mem_map]
  constructor
  · rintro ⟨l, ⟨r, hr, rfl⟩, hx⟩
    rw [heightsList, List.mem_range'_1] at hx
    exact ⟨r, hr, hx.1, by omega⟩
  · rintro ⟨r, hr, h1, h2⟩
    exact ⟨heightsList r.1 r.2, ⟨r, hr, rfl⟩,
      by rw [heightsList, List.mem_range'_1]; omega⟩

/-- The heights of a valid range list are strictly ascending. -/
theorem concatHeights_sorted (st : List (Nat × Nat)) (hv : ValidRanges st) :
    List.Pairwise (· < ·) (concatHeights st) := by
  induction st with
  | nil => simp [concatHeights]
  | cons r rest ih =>
      have hv' : ValidRanges rest :=
        ⟨fun q hq => hv.1 q (List.mem_cons_of_mem _ hq),
          (List.pairwise_cons.mp hv.2).2⟩
      rw [concatHeights_cons, List.pairwise_append]
      refine ⟨List.pairwise_lt_range' _ _, ih hv', ?_⟩
      intro a ha b hb
      rw [heightsList, List.mem_range'_1] at ha
      obtain ⟨q, hq, hq1, _⟩ := (mem_concatHeights rest b).mp hb
      have hgap := (List.pairwise_cons.mp hv.2).1 q hq
      have hr := hv.1 r (by simp)
      omega

/-- Draining the iterator with enough fuel enumerates all remaining
heights. -/
theorem collectBatches_concat (L : Nat) (hL : 1 ≤ L) :
    ∀ (fuel : Nat) (st : List (Nat × Nat)), ValidRanges st → totalLen st ≤ fuel →
      concatHeights (collectBatches L fuel st) = concatHeights st := by
  intro fuel
  induction fuel with
  | zero =>
      intro st hv htot
      cases st with
      | nil => rfl
      | cons r rest =>
          exfalso
          have hr := hv.1 r (by simp)
          simp [totalLen] at htot
          omega
  | succ fuel ih =>
      intro st hv htot
      cases st with
      | nil => rfl
      | cons r rest =>
          obtain ⟨s, e⟩ := r
          have hr := hv.1 (s, e) (by simp)
          have hv' : ValidRanges rest :=
            ⟨fun q hq => hv.1 q (List.mem_cons_of_mem _ hq),
              (List.pairwise_cons.mp hv.2).2⟩
          by_cases hcase : e + 1 - s ≤ L
          · have hnb : nextBatch L ((s, e) :: rest) = some ((s, e), rest) := by
              simp [nextBatch, hcase]
            have htot' : totalLen rest ≤ fuel := by
              simp only [totalLen, List.map_cons, List.sum_cons] at htot ⊢
              omega
            simp only [collectBatches, hnb]
            rw [concatHeights_cons, ih rest hv' htot', ← concatHeights_cons]
          · have hnb : nextBatch L ((s, e) :: rest)
                = some ((s, s + L - 1), (s + L, e) :: rest) := by
              simp [nextBatch, hcase]
            have hv'' : ValidRanges ((s + L, e) :: rest) := by
              refine ⟨?_, ?_⟩
              · intro q hq
                rcases List.mem_cons.mp hq with rfl | hq'
                · exact ⟨by omega, by omega⟩
                · exact hv.1 q (List.mem_cons_of_mem _ hq')
              · rw [List.pairwise_cons]
                exact ⟨fun q hq => (List.pairwise_cons.mp hv.2).1 q hq,
                  (List.pairwise_cons.mp hv.2).2⟩
            have htot' : totalLen ((s + L, e) :: rest) ≤ fuel := by
              simp only [totalLen, List.map_cons, List.sum_cons] at htot ⊢
              omega
            simp only [collectBatches, hnb]
            rw [concatHeights_cons, ih _ hv'' htot', concatHeights_cons,
              ← List.append_assoc]
            rw [concatHeights_cons]
            congr 1
            simpa using (heightsList_split s e L hL (by omega)).symm

/-- C8: `next_batch(limit)` returns `None` exactly when the ranges are
exhausted; otherwise it returns the first `min(limit, len)` heights of the
lowest remaining range (never spanning two ranges) and advances the cursor
past them; draining the iterator concatenates to exactly the heights of the
union of the ranges, in ascending order. -/
theorem header_ranges_iterator_correct (L : Nat) (st : List (Nat × Nat))
    (hL : 1 ≤ L) (hv : ValidRanges st) :
    (nextBatch L st = none ↔ concatHeights st = []) ∧
      (∀ s e rest, st = (s, e) :: rest →
        nextBatch L st
          = some ((s, min e (s + L - 1)),
              if e + 1 - s ≤ L then rest else (s + L, e) :: rest) ∧
          heightsList s (min e (s + L - 1)) = (heightsList s e).take L ∧
          concatHeights (if e + 1 - s ≤ L then rest else (s + L, e) :: rest)
            = (heightsList s e).drop L ++ concatHeights rest) ∧
      concatHeights (collectBatches L (totalLen st) st) = concatHeights st ∧
      List.Pairwise (· < ·) (concatHeights st) := by
  refine ⟨?_, ?_, collectBatches_concat L hL (totalLen st) st hv (le_refl _),
    concatHeights_sorted st hv⟩
  · cases st with
    | nil => simp [nextBatch, concatHeights]
    | cons r rest =>
        have hr := hv.1 r (by simp)
        constructor
        · intro h
          rw [nextBatch] at h
          split at h <;> simp_all
        · intro h
          rw [concatHeights_cons] at h
          have : (heightsList r.1 r.2).length = 0 := by
            rw [List.append_eq_nil] at h
            rw [h.1]
            rfl
          rw [heightsList_length] at this
          omega
  · intro s e rest hst
    subst hst
    have hr := hv.1 (s, e) (by simp)
    by_cases hcase : e + 1 - s ≤ L
    · have hmin : min e (s + L - 1) = e := by omega
      refine ⟨by simp [nextBatch, hcase, hmin], ?_, ?_⟩
      · rw [hmin]
        exact (List.take_of_length_le (by rw [heightsList_length]; omega)).symm
      · rw [if_pos hcase,
          List.drop_eq_nil_of_le (by rw [heightsList_length]; omega)]
        rfl
    · have hmin : min e (s + L - 1) = s + L - 1 := by omega
      have hsplit := heightsList_split s e L hL (by omega)
      refine ⟨by simp [nextBatch, hcase, hmin], ?_, ?_⟩
      · rw [hmin, hsplit, List.take_left' (by rw [heightsList_length]; omega)]
      · rw [if_neg hcase, concatHeights_cons, hsplit,
          List.drop_left' (by rw [heightsList_length]; omega)]

/-- C8 witness at `L = 2`, ranges `{1..=3, 5..=6}`. -/
theorem header_ranges_iterator_correct_witness :
    (nextBatch 2 [(1, 3), (5, 6)] = none ↔ concatHeights [(1, 3), (5, 6)] = []) ∧
      (∀ s e rest, ([(1, 3), (5, 6)] : List (Nat × Nat)) = (s, e) :: rest →
        nextBatch 2 [(1, 3), (5, 6)]
          = some ((s, min e (s + 2 - 1)),
              if e + 1 - s ≤ 2 then rest else (s + 2, e) :: rest) ∧
          heightsList s (min e (s + 2 - 1)) = (heightsList s e).take 2 ∧
          concatHeights (if e + 1 - s ≤ 2 then rest else (s + 2, e) :: rest)
            = (heightsList s e).drop 2 ++ concatHeights rest) ∧
      concatHeights (collectBatches 2 (totalLen [(1, 3), (5, 6)]) [(1, 3), (5, 6)])
        = concatHeights [(1, 3), (5, 6)] ∧
      List.Pairwise (· < ·) (concatHeights [(1, 3), (5, 6)]) :=
  header_ranges_iterator_correct 2 [(1, 3), (5, 6)] (by decide)
    ⟨by norm_num, by norm_num⟩


/-- C6: on a successful range reservation for a batch `[lo, hi]`, the
`prev_exists` flag is set exactly when a left-adjacent stored range exists
(and `next_exists` for a right-adjacent one); with `prev_exists` set,
`verify_against_neighbours` loads the header at `lo - 1` — failing with
`StoredDataError` when it is missing — and verifies it against the batch's
first header before running the right-hand check; symmetrically the header
at `hi + 1` is loaded and the batch's last header verified against it; with
neither flag set no verification happens at all. -/
theorem verify_against_neighbours_correct
    (stored : List (Nat × Nat)) (new : Nat × Nat)
    (getByHeight : Nat → Except StoreError ExtendedHeader)
    (vf : ExtendedHeader → ExtendedHeader → Except StoreError Unit)
    (lowest highest : ExtendedHeader)
    (hlow : lowest.height = new.1) (hhigh : highest.height = new.2)
    (hv : ValidRanges stored) (p n : Bool)
    (hflags : tryInsertFlags stored new = .ok (p, n)) :
    (p = true ↔ ∃ r ∈ stored, r.2 + 1 = new.1) ∧
      (n = true ↔ ∃ r ∈ stored, new.2 + 1 = r.1) ∧
      (p = true → getByHeight (new.1 - 1) = .error .notFound →
        verifyAgainstNeighbours getByHeight vf lowest highest (p, n)
          = .error .storedDataError) ∧
      (∀ prev, p = true → getByHeight (new.1 - 1) = .ok prev →
        verifyAgainstNeighbours getByHeight vf lowest highest (p, n)
          = vf prev lowest >>= fun _ =>
              verifyAgainstNeighbours getByHeight vf lowest highest (false, n)) ∧
      (n = true → getByHeight (new.2 + 1) = .error .notFound →
        verifyAgainstNeighbours getByHeight vf lowest highest (false, n)
          = .error .storedDataError) ∧
      (∀ next, n = true → getByHeight (new.2 + 1) = .ok next →
        verifyAgainstNeighbours getByHeight vf lowest highest (false, n)
          = vf highest next) ∧
      verifyAgainstNeighbours getByHeight vf lowest highest (false, false)
        = .ok () := by
  rcases hcr : checkRangeInsert stored new with e | merged
  · rw [tryInsertFlags, hcr] at hflags
    simp [Except.map] at hflags
  · rw [tryInsertFlags, hcr] at hflags
    simp only [Except.map, Except.ok.injEq, Prod.mk.injEq] at hflags
    obtain ⟨hp, hn⟩ := hflags
    have hmerged : merged
        = (((stored.filter fun r => r.2 + 1 = new.1).head?.map Prod.fst).getD new.1,
           ((stored.filter fun r => new.2 + 1 = r.1).head?.map Prod.snd).getD new.2) := by
      unfold checkRangeInsert at hcr
      split_ifs at hcr
      simp_all
    refine ⟨?_, ?_, ?_, ?_, ?_, ?_, ?_⟩
    · rw [← hp, hmerged]
      rcases hfl : stored.filter (fun r => r.2 + 1 = new.1) with _ | ⟨r0, rs⟩
      · rw [hfl]
        rw [List.filter_eq_nil_iff] at hfl
        simp only [List.head?_nil, Option.map_none', Option.getD_none,
          decide_eq_true_eq, ne_eq, not_true_eq_false, false_iff, not_exists]
        intro r hr
        have hnadj := hfl r hr.1
        simp only [decide_eq_true_eq] at hnadj
        exact hnadj hr.2
      · have hr0 : r0 ∈ stored.filter (fun r => r.2 + 1 = new.1) := by
          rw [hfl]; exact List.mem_cons_self _ _
        rw [List.mem_filter] at hr0
        have hr0v := hv.1 r0 hr0.1
        have hadj : r0.2 + 1 = new.1 := by simpa using hr0.2
        rw [hfl]
        simp only [List.head?_cons, Option.map_some', Option.getD_some,
          decide_eq_true_eq, ne_eq]
        constructor
        · intro _; exact ⟨r0, hr0.1, hadj⟩
        · intro _; omega
    · rw [← hn, hmerged]
      rcases hfl : stored.filter (fun r => new.2 + 1 = r.1) with _ | ⟨r0, rs⟩
      · rw [hfl]
        rw [List.filter_eq_nil_iff] at hfl
        simp only [List.head?_nil, Option.map_none', Option.getD_none,
          decide_eq_true_eq, ne_eq, not_true_eq_false, false_iff, not_exists]
        intro r hr
        have hnadj := hfl r hr.1
        simp only [decide_eq_true_eq] at hnadj
        exact hnadj hr.2
      · have hr0 : r0 ∈ stored.filter (fun r => new.2 + 1 = r.1) := by
          rw [hfl]; exact List.mem_cons_self _ _
        rw [List.mem_filter] at hr0
        have hr0v := hv.1 r0 hr0.1
        have hadj : new.2 + 1 = r0.1 := by simpa using hr0.2
        rw [hfl]
        simp only [List.head?_cons, Option.map_some', Option.getD_some,
          decide_eq_true_eq, ne_eq]
        constructor
        · intro _; exact ⟨r0, hr0.1, hadj⟩
        · intro _; omega
    · intro hp1 hmiss
      subst hp1
      simp [verifyAgainstNeighbours, hlow, hmiss, mapNotFoundToStoredData,
        bind, Except.bind]
    · intro prev hp1 hfound
      subst hp1
      simp only [verifyAgainstNeighbours, hlow, hfound, mapNotFoundToStoredData,
        bind, Except.bind, if_true, pure, Except.pure]
      cases hvf : vf prev lowest <;> simp [bind, Except.bind]
    · intro hn1 hmiss
      subst hn1
      simp [verifyAgainstNeighbours, hhigh, hmiss, mapNotFoundToStoredData,
        bind, Except.bind, pure, Except.pure]
    · intro next hn1 hfound
      subst hn1
      simp only [verifyAgainstNeighbours, hhigh, hfound, mapNotFoundToStoredData,
        bind, Except.bind, if_true, pure, Except.pure]
      cases hvf : vf highest next <;> simp [bind, Except.bind]
    · simp [verifyAgainstNeighbours, bind, Except.bind, pure, Except.pure]

/-- C6 witness: stored `{1..=2}`, batch `3..=4` (left-adjacent exists, no
right neighbour), headers `ehB` (height 3) and `ehC` (height 4), a table
holding only height 2, and an always-passing verifier. -/
theorem verify_against_neighbours_correct_witness :
    ((true : Bool) = true ↔ ∃ r ∈ ([(1, 2)] : List (Nat × Nat)), r.2 + 1 = 3) ∧
      ((false : Bool) = true ↔ ∃ r ∈ ([(1, 2)] : List (Nat × Nat)), 4 + 1 = r.1) ∧
      ((true : Bool) = true →
        (fun h => if h = 2 then (.ok ehA : Except StoreError ExtendedHeader)
          else .error .notFound) (3 - 1) = .error .notFound →
        verifyAgainstNeighbours
          (fun h => if h = 2 then .ok ehA else .error .notFound)
          (fun _ _ => .ok ()) ehB ehC (true, false) = .error .storedDataError) ∧
      (∀ prev, (true : Bool) = true →
        (fun h => if h = 2 then (.ok ehA : Except StoreError ExtendedHeader)
          else .error .notFound) (3 - 1) = .ok prev →
        verifyAgainstNeighbours
          (fun h => if h = 2 then .ok ehA else .error .notFound)
          (fun _ _ => .ok ()) ehB ehC (true, false)
          = (fun _ _ => (.ok () : Except StoreError Unit)) prev ehB >>= fun _ =>
              verifyAgainstNeighbours
                (fun h => if h = 2 then .ok ehA else .error .notFound)
                (fun _ _ => .ok ()) ehB ehC (false, false)) ∧
      ((false : Bool) = true →
        (fun h => if h = 2 then (.ok ehA : Except StoreError ExtendedHeader)
          else .error .notFound) (4 + 1) = .error .notFound →
        verifyAgainstNeighbours
          (fun h => if h = 2 then .ok ehA else .error .notFound)
          (fun _ _ => .ok ()) ehB ehC (false, false) = .error .storedDataError) ∧
      (∀ next, (false : Bool) = true →
        (fun h => if h = 2 then (.ok ehA : Except StoreError ExtendedHeader)
          else .error .notFound) (4 + 1) = .ok next →
        verifyAgainstNeighbours
          (fun h => if h = 2 then .ok ehA else .error .notFound)
          (fun _ _ => .ok ()) ehB ehC (false, false)
          = (fun _ _ => (.ok () : Except StoreError Unit)) ehC next) ∧
      verifyAgainstNeighbours
        (fun h => if h = 2 then .ok ehA else .error .notFound)
        (fun _ _ => .ok ()) ehB ehC (false, false) = .ok () :=
  verify_against_neighbours_correct [(1, 2)] (3, 4)
    (fun h => if h = 2 then .ok ehA else .error .notFound)
    (fun _ _ => .ok ()) ehB ehC (by rfl) (by rfl)
    ⟨by norm_num, List.pairwise_singleton _ _⟩ true false (by rfl)

end Celestia
